import Mathlib

/-!
Verification of the WeChat auto-responder core (`main.py`): the bounded
per-conversation history store, the context assembler, the per-key
debounce-and-batch scheduler, and the batch dispatcher.

All mutable state in the source is keyed by `chat_name` and protected by the
per-key lock `timer_locks[chat_name]`; distinct keys never share state, so the
timed scheduler is modelled for a single key (one queue, one timer), and the
multi-key parts (`on_message` routing, configuration lookup) carry explicit
association lists keyed by the chat name.
-/

namespace WeChatAuto

/-- Python list slice `l[-n:]`. For `n ≥ 1` this is the suffix of the last
`min n l.length` elements; for `n = 0`, `l[-0:]` is `l[0:]`, the whole list. -/
def pySliceLast (n : Nat) (l : List α) : List α :=
  if n = 0 then l else l.drop (l.length - n)

/-- The last `n` elements of a list, oldest first: written independently of
`pySliceLast`, following the words of the specification (take the `n` newest,
return them in arrival order). -/
def takeLastSpec (n : Nat) (l : List α) : List α :=
  (l.reverse.take n).reverse

/-- One entry of `self.chat_histories[chat_name]`: the dict with fields
`content` and `is_user`. -/
structure Entry where
  content : String
  is_user : Bool
deriving DecidableEq, Repr

/-- `WeChatAutoResponder._update_chat_history`, acting on the list of one key.
`hlen` is `self.history_length`; append then, if the length exceeds
`history_length * 2`, keep the Python slice `[-history_length * 2:]`. -/
def updateChatHistory (hlen : Nat) (cur : List Entry) (e : Entry) : List Entry :=
  let l := cur ++ [e]
  if hlen * 2 < l.length then pySliceLast (hlen * 2) l else l

/-- The history read in `_build_chat_context`: if the key is present in
`self.chat_histories`, the slice `[-self.history_length:]` of its list,
otherwise nothing. `store` models the `chat_histories` dict. -/
def recentEntries (store : List (String × List Entry)) (key : String)
    (limit : Nat) : List Entry :=
  match store.lookup key with
  | some l => pySliceLast limit l
  | none => []

/-- The `messages_to_respond` section of `_build_chat_context`: a single
message verbatim, otherwise `"\n".join(f"[{i+1}] {msg}" for i, msg in
enumerate(msgs))`. -/
def renderBatch (msgs : List String) : String :=
  match msgs with
  | [m] => m
  | ms => String.intercalate "\n"
      (ms.enum.map (fun p => "[" ++ toString (p.1 + 1) ++ "] " ++ p.2))

/-- The numbered lines `[i] msg`, …, `[i+k] msg`, as the specification words
them: each message on its own line, numbered in arrival order. -/
def numberedFrom : Nat → List String → List String
  | _, [] => []
  | i, m :: ms => ("[" ++ toString i ++ "] " ++ m) :: numberedFrom (i + 1) ms

/-- The rendering the specification gives of a multi-message batch: `n` lines
numbered `[1]` through `[n]`, in arrival order. -/
def renderBatchSpec (msgs : List String) : String :=
  String.intercalate "\n" (numberedFrom 1 msgs)

/-- The history transcript lines of `_build_chat_context`: each entry labeled
`Me`/`Friend` by origin, oldest first. -/
def historyLines (entries : List Entry) : List String :=
  entries.map (fun e => (if e.is_user then "Me" else "Friend") ++ ": " ++ e.content)

section SliceLemmas

theorem pySliceLast_of_pos (n : Nat) (l : List α) (h : 0 < n) :
    pySliceLast n l = l.drop (l.length - n) := by
  simp [pySliceLast, Nat.pos_iff_ne_zero.mp h]

theorem takeLastSpec_eq_drop (n : Nat) (l : List α) :
    takeLastSpec n l = l.drop (l.length - n) := by
  induction l with
  | nil => simp [takeLastSpec]
  | cons a t ih =>
    simp only [takeLastSpec, List.reverse_cons]
    rcases Nat.lt_or_ge (t.length) n with hlt | hge
    · have h3 : (t.reverse ++ [a]).length ≤ n := by
        simp [List.length_append, List.length_reverse]; omega
      have h1 : (a :: t).length - n = 0 := by
        simp [List.length_cons]; omega
      rw [List.take_of_length_le h3, h1]
      simp
    · have h2 : List.take n (t.reverse ++ [a]) = List.take n t.reverse :=
        List.take_append_of_le_length (by simpa using hge)
      have h1 : (a :: t).length - n = (t.length - n) + 1 := by
        simp [List.length_cons]; omega
      rw [h2, h1, List.drop_succ_cons]
      simpa [takeLastSpec] using ih

theorem pySliceLast_eq_takeLastSpec (n : Nat) (l : List α) (h : 0 < n) :
    pySliceLast n l = takeLastSpec n l := by
  rw [pySliceLast_of_pos n l h, takeLastSpec_eq_drop]

theorem takeLastSpec_length (n : Nat) (l : List α) :
    (takeLastSpec n l).length = min n l.length := by
  simp [takeLastSpec]

theorem takeLastSpec_of_length_le (n : Nat) (l : List α) (h : l.length ≤ n) :
    takeLastSpec n l = l := by
  unfold takeLastSpec
  rw [List.take_of_length_le (by simpa using h), List.reverse_reverse]

theorem takeLastSpec_append_singleton (n : Nat) (l : List α) (x : α) (h : 0 < n) :
    takeLastSpec n (l ++ [x]) = takeLastSpec (n - 1) l ++ [x] := by
  cases n with
  | zero => omega
  | succ m => simp [takeLastSpec, List.reverse_append]

theorem takeLastSpec_takeLastSpec (m n : Nat) (l : List α) (h : m ≤ n) :
    takeLastSpec m (takeLastSpec n l) = takeLastSpec m l := by
  simp [takeLastSpec, List.take_take, Nat.min_eq_left h]

end SliceLemmas

section HistoryStore

theorem takeLastSpec_append_absorb (n : Nat) (h : 0 < n) (p : List Entry)
    (e : Entry) :
    takeLastSpec n (takeLastSpec n p ++ [e]) = takeLastSpec n (p ++ [e]) := by
  rw [takeLastSpec_append_singleton _ _ _ h, takeLastSpec_append_singleton _ _ _ h,
    takeLastSpec_takeLastSpec _ _ _ (Nat.sub_le n 1)]

theorem updateChatHistory_takeLast (hlen : Nat) (h : 1 ≤ hlen) (p : List Entry)
    (e : Entry) :
    updateChatHistory hlen (takeLastSpec (hlen * 2) p) e =
      takeLastSpec (hlen * 2) (p ++ [e]) := by
  have hn : 0 < hlen * 2 := by omega
  unfold updateChatHistory
  by_cases hc : hlen * 2 < (takeLastSpec (hlen * 2) p ++ [e]).length
  · simp only [hc, if_true]
    rw [pySliceLast_eq_takeLastSpec _ _ hn]
    exact takeLastSpec_append_absorb _ hn p e
  · simp only [hc, if_false]
    have hlenle : p.length < hlen * 2 := by
      have := takeLastSpec_length (hlen * 2) p
      simp only [List.length_append, List.length_singleton] at hc
      omega
    rw [takeLastSpec_of_length_le _ _ (Nat.le_of_lt hlenle),
      takeLastSpec_of_length_le _ _ (by simp; omega)]

theorem foldl_updateChatHistory (hlen : Nat) (h : 1 ≤ hlen) :
    ∀ (es : List Entry) (p : List Entry),
      List.foldl (updateChatHistory hlen) (takeLastSpec (hlen * 2) p) es =
        takeLastSpec (hlen * 2) (p ++ es) := by
  intro es
  induction es with
  | nil => intro p; simp
  | cons e t ih =>
    intro p
    have step := updateChatHistory_takeLast hlen h p e
    calc List.foldl (updateChatHistory hlen) (takeLastSpec (hlen * 2) p) (e :: t)
        = List.foldl (updateChatHistory hlen) (takeLastSpec (hlen * 2) (p ++ [e])) t := by
          rw [List.foldl_cons, step]
      _ = takeLastSpec (hlen * 2) ((p ++ [e]) ++ t) := ih (p ++ [e])
      _ = takeLastSpec (hlen * 2) (p ++ e :: t) := by rw [List.append_assoc]; rfl

end HistoryStore

/-- C2 (amended): with `history_length ≥ 1`, after any sequence of appends
through `_update_chat_history` the stored history is exactly the most recent
`2 × historyWindow` entries, in arrival order, and its length never exceeds
`2 × historyWindow`. -/
theorem history_bound_of_pos (hlen : Nat) (es : List Entry) (h : 1 ≤ hlen) :
    List.foldl (updateChatHistory hlen) [] es = takeLastSpec (hlen * 2) es ∧
      (List.foldl (updateChatHistory hlen) [] es).length ≤ hlen * 2 := by
  have hbase : (takeLastSpec (hlen * 2) ([] : List Entry)) = [] := by
    simp [takeLastSpec]
  have hmain := foldl_updateChatHistory hlen h es []
  rw [hbase] at hmain
  simp only [List.nil_append] at hmain
  refine ⟨hmain, ?_⟩
  rw [hmain, takeLastSpec_length]
  omega

/-- C2 witness: `history_length = 2`, five appends keep exactly the last
four entries, oldest first. -/
theorem history_bound_of_pos_witness :
    List.foldl (updateChatHistory 2) []
        [⟨"a", false⟩, ⟨"b", true⟩, ⟨"c", false⟩, ⟨"d", true⟩, ⟨"e", false⟩] =
      takeLastSpec 4 [⟨"a", false⟩, ⟨"b", true⟩, ⟨"c", false⟩, ⟨"d", true⟩,
        ⟨"e", false⟩] ∧
    (List.foldl (updateChatHistory 2) []
        [⟨"a", false⟩, ⟨"b", true⟩, ⟨"c", false⟩, ⟨"d", true⟩,
          ⟨"e", false⟩]).length ≤ 4 :=
  history_bound_of_pos 2
    [⟨"a", false⟩, ⟨"b", true⟩, ⟨"c", false⟩, ⟨"d", true⟩, ⟨"e", false⟩]
    (by decide)

/-- C2 counterexample: with `history_length = 0`, the Python slice `[-0:]`
keeps the whole list, so a single append already exceeds the claimed bound
`2 × historyWindow = 0`. -/
theorem history_bound_fails_at_zero :
    ¬ (List.foldl (updateChatHistory 0) [] [⟨"hi", false⟩]).length ≤ 0 * 2 := by
  decide

/-- C7 (amended): for `limit ≥ 1`, the history read of `_build_chat_context`
returns the last `min limit length` stored entries, oldest first, with the
`Me`/`Friend` origin labels applied to exactly those entries, and returns
nothing for an unknown key. -/
theorem recentEntries_spec (store : List (String × List Entry)) (key : String)
    (limit : Nat) (h : 1 ≤ limit) :
    (store.lookup key = none → recentEntries store key limit = []) ∧
    (∀ l, store.lookup key = some l →
      recentEntries store key limit = takeLastSpec limit l ∧
      (recentEntries store key limit).length = min limit l.length ∧
      historyLines (recentEntries store key limit) =
        historyLines (takeLastSpec limit l)) := by
  constructor
  · intro hnone
    simp [recentEntries, hnone]
  · intro l hl
    have hr : recentEntries store key limit = takeLastSpec limit l := by
      simp [recentEntries, hl, pySliceLast_eq_takeLastSpec limit l (by omega)]
    refine ⟨hr, ?_, by rw [hr]⟩
    rw [hr, takeLastSpec_length]

/-- C7 witness: the scenario of the spec — `historyWindow = 2`, four stored
entries, reading with limit 2 returns only the last two, oldest first. -/
theorem recentEntries_spec_witness :
    recentEntries [("Alice", [⟨"a", false⟩, ⟨"b", true⟩, ⟨"c", false⟩,
        ⟨"d", true⟩])] "Alice" 2 =
      takeLastSpec 2 [⟨"a", false⟩, ⟨"b", true⟩, ⟨"c", false⟩, ⟨"d", true⟩] :=
  ((recentEntries_spec [("Alice", [⟨"a", false⟩, ⟨"b", true⟩, ⟨"c", false⟩,
      ⟨"d", true⟩])] "Alice" 2 (by decide)).2
    [⟨"a", false⟩, ⟨"b", true⟩, ⟨"c", false⟩, ⟨"d", true⟩] (by decide)).1

/-- C7 counterexample: with limit 0 the Python slice `[-0:]` returns the
whole stored list, not the last `min 0 length = 0` entries. -/
theorem recentEntries_fails_at_zero :
    (recentEntries [("Alice", [⟨"hi", false⟩])] "Alice" 0).length ≠ min 0 1 := by
  decide

section ContextAssembler

theorem enumFrom_map_numbered (ms : List String) :
    ∀ i : Nat,
      (List.enumFrom i ms).map
          (fun p => "[" ++ toString (p.1 + 1) ++ "] " ++ p.2) =
        numberedFrom (i + 1) ms := by
  induction ms with
  | nil => intro i; rfl
  | cons m t ih =>
    intro i
    simp only [List.enumFrom, List.map_cons, numberedFrom]
    rw [ih (i + 1)]

end ContextAssembler

/-- C6: the `messages_to_respond` payload of `_build_chat_context` embeds a
single-message batch verbatim (no numbering), and a batch of more than one
message as one line per message, numbered `[1]` through `[n]` in arrival
order. -/
theorem renderBatch_spec (msgs : List String) :
    (∀ m, msgs = [m] → renderBatch msgs = m) ∧
    (1 < msgs.length → renderBatch msgs = renderBatchSpec msgs) := by
  constructor
  · intro m hm
    subst hm
    rfl
  · intro hlen
    match msgs with
    | [] => simp at hlen
    | [a] => simp at hlen
    | a :: b :: t =>
      show String.intercalate "\n"
          ((List.enum (a :: b :: t)).map
            (fun p => "[" ++ toString (p.1 + 1) ++ "] " ++ p.2)) =
        renderBatchSpec (a :: b :: t)
      rw [renderBatchSpec, List.enum, enumFrom_map_numbered]

/-- C6 witness: a one-message batch is embedded verbatim and a two-message
batch is rendered as the numbered lines of the specification. -/
theorem renderBatch_spec_witness :
    renderBatch ["hi"] = "hi" ∧
      renderBatch ["hi", "u there?"] = renderBatchSpec ["hi", "u there?"] :=
  ⟨(renderBatch_spec ["hi"]).1 "hi" rfl,
    (renderBatch_spec ["hi", "u there?"]).2 (by decide)⟩

section PendingBatchStore

end PendingBatchStore

/-- A pending message as stored by `on_message`: the tuple
`(msg, msg.content)`. `handle` stands for the raw wxauto message object,
used later to address the reply via `quote`. -/
structure Pending where
  handle : Nat
  content : String
deriving DecidableEq, Repr

/-- One atomic critical section on the pending queue of one key. `enq` is the
`message_queues[chat_name].append(...)` of `on_message`; `drain` is the
copy-and-clear (with the empty-queue early return) of `_send_batched_reply`.
Both sections run entirely under `timer_locks[chat_name]`, so every
concurrent execution on one key linearizes to a sequence of these events. -/
inductive QEvent where
  | enq (m : Pending)
  | drain

/-- Effect of one atomic queue event on `(queue, drained batches)`. -/
def qStep : List Pending × List (List Pending) → QEvent →
    List Pending × List (List Pending)
  | (q, batches), .enq m => (q ++ [m], batches)
  | (q, batches), .drain => if q = [] then (q, batches) else ([], batches ++ [q])

/-- Run a linearized sequence of enqueue/drain events from an empty queue. -/
def runQueue (evs : List QEvent) : List Pending × List (List Pending) :=
  evs.foldl qStep ([], [])

/-- The messages enqueued by a sequence of events, in order. -/
def enqueuedOf (evs : List QEvent) : List Pending :=
  evs.filterMap (fun ev => match ev with | .enq m => some m | .drain => none)

theorem foldl_qStep_flatten (evs : List QEvent) :
    ∀ (q : List Pending) (batches : List (List Pending)),
      ((evs.foldl qStep (q, batches)).2.flatten ++ (evs.foldl qStep (q, batches)).1) =
        batches.flatten ++ q ++ enqueuedOf evs := by
  induction evs with
  | nil => intro q batches; simp [enqueuedOf]
  | cons ev t ih =>
    intro q batches
    cases ev with
    | enq m =>
      rw [List.foldl_cons]
      show ((t.foldl qStep (q ++ [m], batches)).2.flatten ++
          (t.foldl qStep (q ++ [m], batches)).1) = _
      rw [ih (q ++ [m]) batches]
      simp [enqueuedOf, List.append_assoc]
    | drain =>
      rw [List.foldl_cons]
      by_cases hq : q = []
      · show ((t.foldl qStep (qStep (q, batches) .drain)).2.flatten ++
            (t.foldl qStep (qStep (q, batches) .drain)).1) = _
        rw [show qStep (q, batches) QEvent.drain = (q, batches) by
          simp [qStep, hq]]
        rw [ih q batches]
        simp [enqueuedOf]
      · show ((t.foldl qStep (qStep (q, batches) .drain)).2.flatten ++
            (t.foldl qStep (qStep (q, batches) .drain)).1) = _
        rw [show qStep (q, batches) QEvent.drain = ([], batches ++ [q]) by
          simp [qStep, hq]]
        rw [ih [] (batches ++ [q])]
        simp [enqueuedOf, List.append_assoc]

/-- C4: under any linearization of concurrent enqueues and drains on one
key (the per-key lock makes each of the two critical sections atomic), the
concatenation of the drained batches followed by the remaining queue is
exactly the sequence of enqueued messages in order — no message is lost, and
no message appears in two places; in particular the multiplicity of every message
is preserved. -/
theorem drain_enqueue_atomic (evs : List QEvent) :
    ((runQueue evs).2.flatten ++ (runQueue evs).1 = enqueuedOf evs) ∧
    (∀ m : Pending, (runQueue evs).2.flatten.count m + (runQueue evs).1.count m =
      (enqueuedOf evs).count m) := by
  have h := foldl_qStep_flatten evs [] []
  simp only [List.flatten_nil, List.nil_append, List.append_nil] at h
  refine ⟨h, ?_⟩
  intro m
  rw [show runQueue evs = List.foldl qStep ([], []) evs from rfl, ← h,
    List.count_append]

/-- A line written by `MessageSupervisor.log_message`. -/
structure LogRec where
  msg_type : String
  msg_attr : String
  chat : String
  content : String
  is_reply : Bool
deriving DecidableEq, Repr

/-- The fallback text returned by `get_gpt_reply` when the OpenAI call
raises. -/
def fallbackReply : String := "请稍等"

/-- `WeChatAutoResponder.get_gpt_reply`: `gen` is the outcome of the OpenAI
call (`ok` carries `response.choices[0].message.content`); any exception in
the try block yields the fixed fallback text. -/
def getGptReply (gen : Except Unit String) : String :=
  match gen with
  | .ok r => r.trim
  | .error _ => fallbackReply

/-- Behaviour of the fallible externals during one flush: the OpenAI call,
and whether `last_msg.quote(reply)` raises. -/
structure FlushOracle where
  gen : Except Unit String
  quoteFails : Bool

/-- The per-conversation state touched by `_send_batched_reply`:
`message_queues[chat]`, presence of `response_timers[chat]`,
`chat_histories[chat]`, the supervisor log, and the replies handed to
`quote` (handle of the quoted message, reply text). -/
structure DispatchState where
  queue : List Pending
  timerPresent : Bool
  history : List Entry
  log : List LogRec
  sent : List (Nat × String)
deriving DecidableEq, Repr

/-- The try-block body of `_send_batched_reply`, after the critical section
drained `queued` from the queue: extract contents, call `get_gpt_reply`
(which never raises), sleep a random natural delay, `quote` the reply on the
last drained message, append the reply to the history as an own entry, and
log it. An `error` result is an exception escaping the try block. -/
def sendBatchedReplyBody (hlen : Nat) (o : FlushOracle) (chat : String)
    (queued : List Pending) (st : DispatchState) : Except Unit DispatchState :=
  let reply := getGptReply o.gen
  match queued.getLast? with
  | none => .error ()
  | some last =>
    if o.quoteFails then .error ()
    else .ok { st with
      sent := st.sent ++ [(last.handle, reply)],
      history := updateChatHistory hlen st.history ⟨reply, true⟩,
      log := st.log ++ [⟨"text", "self", chat, reply, true⟩] }

/-- `WeChatAutoResponder._send_batched_reply` as the timer thread runs it:
under the per-key lock, return if the queue is empty, otherwise copy and
clear it and drop the timer reference; then run the try block, whose
`except Exception: pass` swallows every failure. The `Except` result is
what the caller of the callback observes: `error` would be an exception
propagating out of the flush callback. -/
def sendBatchedReply (hlen : Nat) (o : FlushOracle) (chat : String)
    (st : DispatchState) : Except Unit DispatchState :=
  if st.queue = [] then .ok st
  else
    let queued := st.queue
    let st1 : DispatchState :=
      { st with queue := [], timerPresent := false }
    match sendBatchedReplyBody hlen o chat queued st1 with
    | .ok s => .ok s
    | .error _ => .ok st1

/-- C5 counterexample: a post-drain failure (the `quote` call raises) is
swallowed by the bare `except Exception: pass`, but nothing is recorded
anywhere: the log after the flush equals the log before it, refuting that
the exception is logged. -/
theorem dispatcher_failure_logs_nothing :
    sendBatchedReply 1 ⟨.ok "hello", true⟩ "Bob"
        ⟨[⟨3, "yo"⟩], true, [], [⟨"text", "friend", "Bob", "yo", false⟩], []⟩ =
      .ok ⟨[], false, [], [⟨"text", "friend", "Bob", "yo", false⟩], []⟩ := rfl

/-- C5 (amended): any exception raised in the dispatcher steps after
draining the queue is caught at the dispatcher boundary and silently
swallowed — the callback always returns normally, and when the try block
fails the returned state is exactly the post-drain state, its log unchanged
(nothing about the failure is logged). -/
theorem sendBatchedReply_swallows_silently (hlen : Nat) (o : FlushOracle)
    (chat : String) (st : DispatchState) :
    (∃ s, sendBatchedReply hlen o chat st = .ok s) ∧
    (∀ e : Unit, st.queue ≠ [] →
      sendBatchedReplyBody hlen o chat st.queue
          { st with queue := [], timerPresent := false } = .error e →
      sendBatchedReply hlen o chat st =
          .ok { st with queue := [], timerPresent := false } ∧
        ({ st with queue := [], timerPresent := false } : DispatchState).log =
          st.log) := by
  obtain ⟨q, tp, hist, lg, snt⟩ := st
  constructor
  · by_cases hq : q = []
    · exact ⟨⟨q, tp, hist, lg, snt⟩, by simp [sendBatchedReply, hq]⟩
    · cases hbody : sendBatchedReplyBody hlen o chat q ⟨[], false, hist, lg, snt⟩ with
      | ok s => exact ⟨s, by simp [sendBatchedReply, hq, hbody]⟩
      | error e =>
        exact ⟨⟨[], false, hist, lg, snt⟩, by simp [sendBatchedReply, hq, hbody]⟩
  · intro e hq hbody
    refine ⟨?_, rfl⟩
    simp only at hbody
    simp [sendBatchedReply, hq, hbody]

/-- C5 witness: a concrete failing send — the reply is generated but
`quote` raises — still returns normally with the drained state and the
log exactly as before the flush. -/
theorem sendBatchedReply_swallows_silently_witness :
    sendBatchedReply 1 ⟨.ok "hello", true⟩ "Alice"
        ⟨[⟨7, "hi"⟩], true, [], [], []⟩ = .ok ⟨[], false, [], [], []⟩ ∧
    (⟨[], false, [], [], []⟩ : DispatchState).log = [] :=
  (sendBatchedReply_swallows_silently 1 ⟨.ok "hello", true⟩ "Alice"
    ⟨[⟨7, "hi"⟩], true, [], [], []⟩).2 () (by decide) rfl

/-- C3: when the generation call fails, the flush of a non-empty batch still
completes with the fixed fallback text: the fallback is quoted on the last
drained message, appended to the history as an own-origin entry, and
recorded in the transcript log. -/
theorem generation_failure_falls_back (hlen : Nat) (o : FlushOracle)
    (chat : String) (st : DispatchState) (p : Pending) (ps : List Pending)
    (hqueue : st.queue = p :: ps) (hgen : o.gen = .error ())
    (hquote : o.quoteFails = false) :
    sendBatchedReply hlen o chat st = .ok
      { queue := [], timerPresent := false,
        history := updateChatHistory hlen st.history ⟨fallbackReply, true⟩,
        log := st.log ++ [⟨"text", "self", chat, fallbackReply, true⟩],
        sent := st.sent ++ [(((p :: ps).getLast (by simp)).handle, fallbackReply)] } := by
  obtain ⟨q, tp, hist, lg, snt⟩ := st
  have hq : q = p :: ps := hqueue
  subst hq
  simp only [sendBatchedReply, sendBatchedReplyBody, getGptReply, hgen, hquote,
    List.getLast?_eq_getLast _ (List.cons_ne_nil p ps)]
  simp

/-- C3 witness: a one-message batch, failing generation, successful send:
the fallback is sent, logged, and ends the history. -/
theorem generation_failure_falls_back_witness :
    sendBatchedReply 1 ⟨.error (), false⟩ "Alice"
        ⟨[⟨7, "hi"⟩], true, [], [], []⟩ = .ok
      { queue := [], timerPresent := false,
        history := updateChatHistory 1 [] ⟨fallbackReply, true⟩,
        log := [⟨"text", "self", "Alice", fallbackReply, true⟩],
        sent := [(7, fallbackReply)] } := by
  have h := generation_failure_falls_back 1 ⟨.error (), false⟩ "Alice"
    ⟨[⟨7, "hi"⟩], true, [], [], []⟩ ⟨7, "hi"⟩ [] rfl rfl rfl
  simpa using h

/-- A per-conversation entry of the `users` list of the config, as looked up through
`self.user_configs[nickname]`: the `.get` defaults (`enabled` true,
`wait_time` 5, empty `prompt`) are already resolved. -/
structure UserConfig where
  enabled : Bool
  wait_time : Nat
  prompt : String
deriving DecidableEq, Repr

/-- An inbound message as `on_message` receives it: `isFriend` is
`isinstance(msg, FriendMessage)`, `handle` stands for the raw message
object later used for `quote`. -/
structure InMsg where
  isFriend : Bool
  msg_type : String
  msg_attr : String
  content : String
  handle : Nat
deriving DecidableEq, Repr

/-- The mutable maps of `WeChatAutoResponder`, all keyed by chat name:
`chat_histories`, `message_queues` (a defaultdict, missing key reads as
empty), `response_timers` (an entry means an armed timer, with its fire
time), and the supervisor log. -/
structure SysState where
  chat_histories : List (String × List Entry)
  message_queues : List (String × List Pending)
  response_timers : List (String × Nat)
  log : List LogRec
deriving DecidableEq, Repr

/-- Dict read with a default (`defaultdict` read without insertion). -/
def alistGet (d : List (String × α)) (k : String) (dflt : α) : α :=
  (d.lookup k).getD dflt

/-- Dict write: replace the binding of `k` or add one. -/
def alistSet : List (String × α) → String → α → List (String × α)
  | [], k, v => [(k, v)]
  | (k0, v0) :: t, k, v =>
    if k0 = k then (k0, v) :: t else (k0, v0) :: alistSet t k v

/-- `WeChatAutoResponder.on_message` for a message resolved to `chat`:
log the message, append it to the history, and — only when it is a friend
message whose chat is present in `user_configs` — enqueue it, cancel any
armed timer for the key and arm a fresh one `wait_time` from `now`.
The image/video download touches none of the modelled state. -/
def onMessage (hlen : Nat) (ucfgs : List (String × UserConfig)) (now : Nat)
    (st : SysState) (m : InMsg) (chat : String) : SysState :=
  let logged : LogRec := ⟨m.msg_type, m.msg_attr, chat, m.content, false⟩
  let st1 : SysState := { st with log := st.log ++ [logged] }
  let newHist : List Entry :=
    updateChatHistory hlen (alistGet st1.chat_histories chat []) ⟨m.content, false⟩
  let st2 : SysState := { st1 with chat_histories := alistSet st1.chat_histories chat newHist }
  if m.isFriend then
    match ucfgs.lookup chat with
    | some cfg =>
      let newQueue : List Pending := alistGet st2.message_queues chat [] ++ [⟨m.handle, m.content⟩]
      { st2 with
        message_queues := alistSet st2.message_queues chat newQueue,
        response_timers := alistSet st2.response_timers chat (now + cfg.wait_time) }
    | none => st2
  else st2

/-- C8: a message whose chat is not in `user_configs` is logged and appended
to the history of that chat, but no queue is touched and no timer of any key is
armed or changed, so no reply path is ever engaged for it. -/
theorem unconfigured_chat_no_reply_path (hlen : Nat)
    (ucfgs : List (String × UserConfig)) (now : Nat) (st : SysState)
    (m : InMsg) (chat : String) (h : ucfgs.lookup chat = none) :
    (onMessage hlen ucfgs now st m chat).message_queues = st.message_queues ∧
    (onMessage hlen ucfgs now st m chat).response_timers = st.response_timers ∧
    (onMessage hlen ucfgs now st m chat).chat_histories =
      alistSet st.chat_histories chat
        (updateChatHistory hlen (alistGet st.chat_histories chat [])
          ⟨m.content, false⟩) ∧
    (onMessage hlen ucfgs now st m chat).log =
      st.log ++ [⟨m.msg_type, m.msg_attr, chat, m.content, false⟩] := by
  unfold onMessage
  cases hf : m.isFriend <;> simp [h]

/-- C8 witness: `"Bob"` is not configured, so his message leaves the queues
and timers untouched while being logged and written to history. -/
theorem unconfigured_chat_no_reply_path_witness :
    (onMessage 20 [("Alice", ⟨true, 5, ""⟩)] 0 ⟨[], [], [], []⟩
        ⟨true, "text", "friend", "hello", 3⟩ "Bob").message_queues = [] ∧
    (onMessage 20 [("Alice", ⟨true, 5, ""⟩)] 0 ⟨[], [], [], []⟩
        ⟨true, "text", "friend", "hello", 3⟩ "Bob").response_timers = [] ∧
    (onMessage 20 [("Alice", ⟨true, 5, ""⟩)] 0 ⟨[], [], [], []⟩
        ⟨true, "text", "friend", "hello", 3⟩ "Bob").chat_histories =
      alistSet [] "Bob" (updateChatHistory 20 (alistGet [] "Bob" [])
        ⟨"hello", false⟩) ∧
    (onMessage 20 [("Alice", ⟨true, 5, ""⟩)] 0 ⟨[], [], [], []⟩
        ⟨true, "text", "friend", "hello", 3⟩ "Bob").log =
      [] ++ [⟨"text", "friend", "Bob", "hello", false⟩] :=
  unconfigured_chat_no_reply_path 20 [("Alice", ⟨true, 5, ""⟩)] 0
    ⟨[], [], [], []⟩ ⟨true, "text", "friend", "hello", 3⟩ "Bob" (by decide)

/-- `user_configs` with the `enabled` field of one conversation replaced. -/
def setEnabled (k : String) (b : Bool) (cfgs : List (String × UserConfig)) :
    List (String × UserConfig) :=
  cfgs.map (fun p => if p.1 = k then (p.1, { p.2 with enabled := b }) else p)

theorem lookup_setEnabled (k : String) (b : Bool)
    (cfgs : List (String × UserConfig)) (j : String) :
    (setEnabled k b cfgs).lookup j =
      (cfgs.lookup j).map
        (fun c => if j = k then { c with enabled := b } else c) := by
  induction cfgs with
  | nil => rfl
  | cons p t ih =>
    obtain ⟨k0, c0⟩ := p
    have hred : setEnabled k b ((k0, c0) :: t) =
        (if k0 = k then (k0, { c0 with enabled := b }) else (k0, c0)) ::
          setEnabled k b t := by
      by_cases h0 : k0 = k <;> simp [setEnabled, h0]
    rw [hred]
    by_cases h0 : k0 = k
    · rw [if_pos h0]
      by_cases hj : j = k0
      · have hjk : j = k := h0 ▸ hj
        simp [List.lookup_cons, hj, hjk, h0]
      · simp [List.lookup_cons, beq_false_of_ne hj, ih]
    · rw [if_neg h0]
      by_cases hj : j = k0
      · have hjk : ¬ j = k := by rw [hj]; exact h0
        simp [List.lookup_cons, hj, hjk, h0]
      · simp [List.lookup_cons, beq_false_of_ne hj, ih]

/-- C10: the reply path never consults the per-conversation `enabled` flag:
flipping it for any key changes neither what `on_message` does (enqueue,
timer arming, history, log) nor the style prompt the context assembler
looks up, so a conversation with `enabled = false` is auto-replied exactly
like an enabled one. -/
theorem enabled_flag_ignored (hlen : Nat) (k : String) (b : Bool)
    (ucfgs : List (String × UserConfig)) (now : Nat) (st : SysState)
    (m : InMsg) (chat : String) :
    onMessage hlen (setEnabled k b ucfgs) now st m chat =
      onMessage hlen ucfgs now st m chat ∧
    ((setEnabled k b ucfgs).lookup chat).map (fun c => c.prompt) =
      (ucfgs.lookup chat).map (fun c => c.prompt) := by
  constructor
  · unfold onMessage
    rw [lookup_setEnabled]
    cases hf : m.isFriend
    · simp
    · cases hc : ucfgs.lookup chat with
      | none => simp
      | some c => by_cases hk : chat = k <;> simp [hk]
  · rw [lookup_setEnabled]
    cases hc : ucfgs.lookup chat with
    | none => simp
    | some c => by_cases hk : chat = k <;> simp [hk]

/-- The debounce timeline of one conversation key: the pending queue contents,
the fire time of the armed timer (arming at `t` with wait `w` schedules `t + w`),
and the flushes fired so far (fire time, drained batch in arrival order).
All of this state is keyed per chat in the source, so the timeline of one key is
independent of the timelines of all other keys. -/
structure SchedState where
  queue : List String
  timer : Option Nat
  flushes : List (Nat × List String)
deriving DecidableEq, Repr

/-- Process start: empty queue, no timer, nothing flushed. -/
def schedInit : SchedState := ⟨[], none, []⟩

/-- Timer expiry: `threading.Timer` invokes `_send_batched_reply`, which
returns immediately on an empty queue and otherwise drains the whole queue
into one flush. -/
def fireTimer (s : SchedState) : SchedState :=
  match s.timer with
  | none => s
  | some f =>
    if s.queue = [] then { s with timer := none }
    else { queue := [], timer := none, flushes := s.flushes ++ [(f, s.queue)] }

/-- Arrival at time `t` inside the critical section of `on_message`:
append to the queue, cancel any armed timer, arm a fresh timer for
`t + wait`. -/
def arrive (wait t : Nat) (m : String) (s : SchedState) : SchedState :=
  { queue := s.queue ++ [m], timer := some (t + wait), flushes := s.flushes }

/-- Advance the timeline to the arrival `ev`: a timer due at or before the
arrival time fires first, then the arrival is processed. -/
def schedStep (wait : Nat) (s : SchedState) (ev : Nat × String) : SchedState :=
  let s1 := match s.timer with
    | some f => if f ≤ ev.1 then fireTimer s else s
    | none => s
  arrive wait ev.1 ev.2 s1

/-- Run a time-ordered list of arrivals. -/
def runArrivals (wait : Nat) (evs : List (Nat × String)) (s : SchedState) :
    SchedState :=
  evs.foldl (schedStep wait) s

/-- Whole timeline of a run: process all arrivals, then let any remaining
armed timer fire. -/
def runBurst (wait : Nat) (evs : List (Nat × String)) : SchedState :=
  fireTimer (runArrivals wait evs schedInit)

/-- The arrivals form a burst after time `tprev`: each arrival is at or
after the previous one and strictly less than `wait` later. -/
def burstAfter (wait : Nat) : Nat → List (Nat × String) → Prop
  | _, [] => True
  | tprev, (t, _) :: rest => tprev ≤ t ∧ t < tprev + wait ∧ burstAfter wait t rest

/-- The time of the last arrival, or `tprev` if there is none. -/
def lastTime : Nat → List (Nat × String) → Nat
  | tprev, [] => tprev
  | _, (t, _) :: rest => lastTime t rest

theorem runArrivals_burst (wait : Nat) :
    ∀ (evs : List (Nat × String)) (tprev : Nat) (q : List String)
      (fl : List (Nat × List String)), burstAfter wait tprev evs →
      runArrivals wait evs ⟨q, some (tprev + wait), fl⟩ =
        ⟨q ++ evs.map Prod.snd, some (lastTime tprev evs + wait), fl⟩ := by
  intro evs
  induction evs with
  | nil =>
    intro tprev q fl h
    simp [runArrivals, lastTime]
  | cons ev rest ih =>
    intro tprev q fl h
    obtain ⟨t, m⟩ := ev
    obtain ⟨h1, h2, h3⟩ := h
    have hstep : schedStep wait ⟨q, some (tprev + wait), fl⟩ (t, m) =
        ⟨q ++ [m], some (t + wait), fl⟩ := by
      have hnf : ¬ (tprev + wait ≤ t) := by omega
      simp [schedStep, hnf, arrive]
    show List.foldl (schedStep wait)
        (schedStep wait ⟨q, some (tprev + wait), fl⟩ (t, m)) rest = _
    rw [hstep]
    have hrest := ih t (q ++ [m]) fl h3
    rw [show List.foldl (schedStep wait) ⟨q ++ [m], some (t + wait), fl⟩ rest =
        runArrivals wait rest ⟨q ++ [m], some (t + wait), fl⟩ from rfl, hrest]
    simp [lastTime]

theorem runArrivals_burst_from_init (wait t0 : Nat) (m0 : String)
    (rest : List (Nat × String)) (h : burstAfter wait t0 rest) :
    runArrivals wait ((t0, m0) :: rest) schedInit =
      ⟨m0 :: rest.map Prod.snd, some (lastTime t0 rest + wait), []⟩ := by
  have hfirst : schedStep wait schedInit (t0, m0) =
      ⟨[m0], some (t0 + wait), []⟩ := by
    simp [schedStep, schedInit, arrive]
  show List.foldl (schedStep wait) (schedStep wait schedInit (t0, m0)) rest = _
  rw [hfirst]
  have hrest := runArrivals_burst wait rest t0 [m0] [] h
  rw [show List.foldl (schedStep wait) ⟨[m0], some (t0 + wait), []⟩ rest =
      runArrivals wait rest ⟨[m0], some (t0 + wait), []⟩ from rfl, hrest]
  simp [lastTime]

/-- C1: for every burst — a nonempty sequence of arrivals to one key, each
spaced less than `wait` after the previous — exactly one flush occurs; its
batch is all the arrivals in arrival order; and it fires `wait` after the
last arrival, because each arrival cancels the previously armed timer and
arms a fresh one for its own time plus `wait`. -/
theorem burst_single_flush (wait t0 : Nat) (m0 : String)
    (rest : List (Nat × String)) (h : burstAfter wait t0 rest) :
    runBurst wait ((t0, m0) :: rest) =
      ⟨[], none, [(lastTime t0 rest + wait, m0 :: rest.map Prod.snd)]⟩ := by
  unfold runBurst
  rw [runArrivals_burst_from_init wait t0 m0 rest h]
  simp [fireTimer]

/-- C1 witness: the Alice scenario — `wait = 5`, `"hi"` at `t = 0`,
`"u there?"` at `t = 2` — gives one flush at `t = 7` with both messages. -/
theorem burst_single_flush_witness :
    runBurst 5 [(0, "hi"), (2, "u there?")] =
      ⟨[], none, [(7, ["hi", "u there?"])]⟩ := by
  have h := burst_single_flush 5 0 "hi" [(2, "u there?")]
    (by refine ⟨by omega, by omega, ?_⟩; simp [burstAfter])
  simpa [lastTime] using h

/-- The Ctrl+C handler at the end of `start`, at wall-clock time `T`: a
timer already due has fired before the interrupt; an armed timer not yet
due is cancelled by `timer.cancel()` and never fires. The pending queues
are not drained. -/
def runWithShutdown (wait : Nat) (evs : List (Nat × String)) (T : Nat) :
    SchedState :=
  let s := runArrivals wait evs schedInit
  let s1 := match s.timer with
    | some f => if f ≤ T then fireTimer s else s
    | none => s
  { s1 with timer := none }

/-- C9: shutdown while the timer of the burst is still armed cancels it without
firing: no flush ever occurs, and every queued message stays in the dropped
queue, never drained or replied to. -/
theorem shutdown_drops_pending (wait t0 : Nat) (m0 : String)
    (rest : List (Nat × String)) (T : Nat) (h : burstAfter wait t0 rest)
    (hT : T < lastTime t0 rest + wait) :
    runWithShutdown wait ((t0, m0) :: rest) T =
      ⟨m0 :: rest.map Prod.snd, none, []⟩ := by
  unfold runWithShutdown
  rw [runArrivals_burst_from_init wait t0 m0 rest h]
  have hnf : ¬ (lastTime t0 rest + wait ≤ T) := by omega
  simp [hnf]

/-- C9 witness: the spec scenario — three messages queued, timer armed to
fire at `t = 7`, shutdown at `t = 4` — no flush, the three messages are
dropped, none ever sent. -/
theorem shutdown_drops_pending_witness :
    runWithShutdown 5 [(0, "a"), (1, "b"), (2, "c")] 4 =
      ⟨["a", "b", "c"], none, []⟩ := by
  have h := shutdown_drops_pending 5 0 "a" [(1, "b"), (2, "c")] 4
    (by refine ⟨by omega, by omega, by omega, by omega, ?_⟩; simp [burstAfter])
    (by simp [lastTime])
  simpa [lastTime] using h

end WeChatAuto
